import Mathlib

/-!
Verification of the task-manager core (task record, storage, service) of the
repository, as a shallow embedding in Lean 4.

Conventions of the embedding:
- A Python Task dataclass value becomes a Lean structure with the same seven
  fields; the generated id and created_at are explicit fields supplied by the
  caller (the generator is environment input, outside the model).
- Task construction (dataclass init plus post-init validation) becomes
  Task.construct, returning Except to model the raised ValueError.
- The keyword-update dictionary of update_task becomes the Updates structure:
  one optional slot per attribute of Task.  Python setattr only fires for keys
  that are attributes of Task (hasattr guard), keys occur at most once in a
  dict, and distinct keys commute, so a structure of options is faithful.
- Each service method becomes a pure function from the loaded task list to
  (new stored list, result, saved flag); the saved flag records whether the
  method called storage.save.  Methods that do not save return the loaded
  list unchanged, matching the Python code.
- Strings are Lean strings; lowercasing is per-character ASCII case folding,
  matching Python str.lower on the ASCII range.
-/

namespace TaskManager

/-- Task record: the seven attributes of the Python Task dataclass, in the
order they are declared in the source. -/
structure Task where
  title : String
  description : String := ""
  priority : String := "medium"
  due_date : Option String := none
  completed : Bool := false
  id : String
  created_at : String
  deriving Repr, DecidableEq

/-- Valid priority list from Task post-init validation. -/
def validPriorities : List String := ["low", "medium", "high"]

/-- Construction of a Task: dataclass init followed by post-init validation,
which raises ValueError when the priority is outside the valid list. -/
def Task.construct (title : String) (description : String) (priority : String)
    (due_date : Option String) (completed : Bool) (id : String)
    (created_at : String) : Except String Task :=
  if validPriorities.contains priority then
    .ok { title := title, description := description, priority := priority,
          due_date := due_date, completed := completed, id := id,
          created_at := created_at }
  else
    .error "Priority must be one of: low, medium, high"

/-- Serialized form of a task: the dictionary produced by Task.to_dict, with
the same seven keys.  JSON text round-trips string, boolean and null values
faithfully, so the file content is modelled at this level. -/
structure TaskDict where
  id : String
  title : String
  description : String
  priority : String
  due_date : Option String
  completed : Bool
  created_at : String
  deriving Repr, DecidableEq

/-- Task.to_dict from the source. -/
def Task.to_dict (t : Task) : TaskDict :=
  { id := t.id, title := t.title, description := t.description,
    priority := t.priority, due_date := t.due_date, completed := t.completed,
    created_at := t.created_at }

/-- Task.from_dict from the source: construct the dataclass from the seven
stored fields, re-running post-init validation. -/
def Task.from_dict (d : TaskDict) : Except String Task :=
  Task.construct d.title d.description d.priority d.due_date d.completed
    d.id d.created_at

/-- Keyword updates accepted by update_task: at most one value per attribute
of Task.  A key that is not an attribute of Task fails the hasattr guard and
is ignored by the source, so it has no representation here. -/
structure Updates where
  title : Option String := none
  description : Option String := none
  priority : Option String := none
  due_date : Option (Option String) := none
  completed : Option Bool := none
  id : Option String := none
  created_at : Option String := none
  deriving Repr, DecidableEq

/-- The setattr loop of update_task: each attribute present in the update
dictionary overwrites the task's attribute. -/
def applyUpdates (u : Updates) (t : Task) : Task :=
  { title := u.title.getD t.title,
    description := u.description.getD t.description,
    priority := u.priority.getD t.priority,
    due_date := u.due_date.getD t.due_date,
    completed := u.completed.getD t.completed,
    id := u.id.getD t.id,
    created_at := u.created_at.getD t.created_at }

namespace TaskService

/-- Result of a service method together with the new stored collection and
whether storage.save was called.  Components: new list, result, saved. -/
abbrev MethodOut (ρ : Type) := List Task × ρ × Bool

/-- TaskService.add_task: append the task and save. -/
def add_task (t : Task) (tasks : List Task) : MethodOut Unit :=
  (tasks ++ [t], (), true)

/-- TaskService.get_all_tasks: return the loaded collection. -/
def get_all_tasks (tasks : List Task) : MethodOut (List Task) :=
  (tasks, tasks, false)

/-- TaskService.get_task_by_id: first task whose id matches, else None. -/
def get_task_by_id (task_id : String) (tasks : List Task) :
    MethodOut (Option Task) :=
  (tasks, tasks.find? (fun t => t.id == task_id), false)

/-- TaskService.get_task_by_index: positional access guarded by
0 <= index < len; the Python index is a signed integer. -/
def get_task_by_index (index : Int) (tasks : List Task) :
    MethodOut (Option Task) :=
  if 0 ≤ index ∧ index < tasks.length then
    (tasks, tasks[index.toNat]?, false)
  else
    (tasks, none, false)

/-- Inner loop of update_task: walk the list, update the first task whose id
matches, report whether a match was found. -/
def updateFirst (task_id : String) (u : Updates) :
    List Task → List Task × Bool
  | [] => ([], false)
  | t :: ts =>
    if t.id == task_id then
      (applyUpdates u t :: ts, true)
    else
      let r := updateFirst task_id u ts
      (t :: r.1, r.2)

/-- TaskService.update_task: update the first matching task's attributes,
save and return True; return False without saving when no id matches. -/
def update_task (task_id : String) (u : Updates) (tasks : List Task) :
    MethodOut Bool :=
  let r := updateFirst task_id u tasks
  if r.2 then (r.1, true, true) else (tasks, false, false)

/-- TaskService.delete_task: keep the tasks whose id differs, save exactly
when the list got shorter. -/
def delete_task (task_id : String) (tasks : List Task) : MethodOut Bool :=
  if (tasks.filter (fun t => t.id != task_id)).length < tasks.length then
    (tasks.filter (fun t => t.id != task_id), true, true)
  else
    (tasks, false, false)

/-- TaskService.delete_task_by_index: pop the element at a valid index and
save; out-of-range indices return False without saving. -/
def delete_task_by_index (index : Int) (tasks : List Task) : MethodOut Bool :=
  if 0 ≤ index ∧ index < tasks.length then
    (tasks.eraseIdx index.toNat, true, true)
  else
    (tasks, false, false)

/-- TaskService.complete_task: update_task setting completed to True. -/
def complete_task (task_id : String) (tasks : List Task) : MethodOut Bool :=
  update_task task_id { completed := some true } tasks

/-- TaskService.complete_task_by_index: look the task up by index, then
complete it by its id; a dataclass instance is always truthy. -/
def complete_task_by_index (index : Int) (tasks : List Task) :
    MethodOut Bool :=
  match (get_task_by_index index tasks).2.1 with
  | some t => complete_task t.id tasks
  | none => (tasks, false, false)

/-- Case-insensitive containment test of the search loop: the lowered keyword
is a substring of the lowered text. -/
def containsKeyword (keyword_lower : String) (text : String) : Bool :=
  decide (keyword_lower.data <:+: text.toLower.data)

/-- TaskService.search_tasks: tasks whose title or description contains the
keyword case-insensitively, in collection order; no save. -/
def search_tasks (keyword : String) (tasks : List Task) :
    MethodOut (List Task) :=
  let keyword_lower := keyword.toLower
  (tasks,
   tasks.filter (fun t =>
     containsKeyword keyword_lower t.title
       || containsKeyword keyword_lower t.description),
   false)

/-- TaskService.filter_tasks: generic predicate filter; no save. -/
def filter_tasks (p : Task → Bool) (tasks : List Task) :
    MethodOut (List Task) :=
  (tasks, tasks.filter p, false)

/-- Statistics dictionary returned by get_statistics; by_priority flattened
into its three keys. -/
structure Stats where
  total : Nat
  completed : Nat
  pending : Nat
  low : Nat
  medium : Nat
  high : Nat
  deriving Repr, DecidableEq

/-- TaskService.get_statistics: total, completed, pending = total minus
completed, and one count per priority key present in the counts dictionary;
no save. -/
def get_statistics (tasks : List Task) : MethodOut Stats :=
  let completed := tasks.countP (fun t => t.completed)
  let pending := tasks.length - completed
  (tasks,
   { total := tasks.length,
     completed := completed,
     pending := pending,
     low := tasks.countP (fun t => t.priority == "low"),
     medium := tasks.countP (fun t => t.priority == "medium"),
     high := tasks.countP (fun t => t.priority == "high") },
   false)

/-- Sample tasks used for concrete instantiations. -/
def sampleA : Task := { title := "a", id := "A", created_at := "c0" }

/-- Second sample task sharing the id of sampleA. -/
def sampleA2 : Task := { title := "b", id := "A", created_at := "c1" }

/-- Third sample task with a distinct id. -/
def sampleB : Task := { title := "d", id := "B", created_at := "c2" }

/-- One mutating service call, for sequences of operations run against a
storage backend.  The read-only calls do not touch the stored state, so
they are observed through obsAll and obsStats below instead. -/
inductive Op where
  | add (t : Task)
  | update (task_id : String) (u : Updates)
  | delete (task_id : String)
  | deleteByIndex (index : Int)
  | complete (task_id : String)
  | completeByIndex (index : Int)
  deriving Repr, DecidableEq

/-- New collection and saved flag produced by one mutating service call on
the loaded collection. -/
def stepList : Op → List Task → List Task × Bool
  | .add t, ts => ((add_task t ts).1, (add_task t ts).2.2)
  | .update i u, ts => ((update_task i u ts).1, (update_task i u ts).2.2)
  | .delete i, ts => ((delete_task i ts).1, (delete_task i ts).2.2)
  | .deleteByIndex i, ts =>
    ((delete_task_by_index i ts).1, (delete_task_by_index i ts).2.2)
  | .complete i, ts => ((complete_task i ts).1, (complete_task i ts).2.2)
  | .completeByIndex i, ts =>
    ((complete_task_by_index i ts).1, (complete_task_by_index i ts).2.2)

end TaskService

/-- IStorage contract from storage.py: load the full collection (or fail),
save it wholesale. -/
structure IStorage (σ : Type) where
  load : σ → Except String (List Task)
  save : List Task → σ → σ

/-- InMemoryStorage: the state is the stored list itself; save replaces it
and load returns it (the defensive copies of the source are identities on
immutable values). -/
def InMemoryStorage : IStorage (List Task) :=
  { load := fun s => .ok s, save := fun ts _ => ts }

/-- JSONStorage: the state is the file content, either absent (none) or the
stored record list; loading an absent file gives the empty collection,
otherwise every record is deserialized and a record failing validation
raises; saving rewrites the whole file with the serialized collection. -/
def JSONStorage : IStorage (Option (List TaskDict)) :=
  { load := fun s =>
      match s with
      | none => .ok []
      | some ds => ds.mapM Task.from_dict,
    save := fun ts _ => some (ts.map Task.to_dict) }

/-- One mutating service call through a storage backend: load the
collection, compute, save when the service saves. -/
def runOp (M : IStorage σ) (op : TaskService.Op) (s : σ) :
    Except String σ := do
  let ts ← M.load s
  let r := TaskService.stepList op ts
  pure (if r.2 then M.save r.1 s else s)

/-- A sequence of mutating service calls from a starting storage state. -/
def runOps (M : IStorage σ) : List TaskService.Op → σ → Except String σ
  | [], s => .ok s
  | op :: ops, s => do
    let s2 ← runOp M op s
    runOps M ops s2

/-- Observable result of get_all_tasks through a backend. -/
def obsAll (M : IStorage σ) (s : σ) : Except String (List Task) := do
  let ts ← M.load s
  pure (TaskService.get_all_tasks ts).2.1

/-- Observable result of get_statistics through a backend. -/
def obsStats (M : IStorage σ) (s : σ) :
    Except String TaskService.Stats := do
  let ts ← M.load s
  pure (TaskService.get_statistics ts).2.1

/-- A task whose priority is inside the valid enumeration. -/
def ValidTask (t : Task) : Prop := t.priority ∈ validPriorities

/-- A collection whose members all carry valid priorities. -/
def ValidTasks (ts : List Task) : Prop := ∀ t ∈ ts, ValidTask t

/-- Operations that never store an out-of-enumeration priority: an added
task is valid (Task construction already guarantees that) and a priority
present in an update set is valid. -/
def OpValid : TaskService.Op → Prop
  | .add t => ValidTask t
  | .update _ u => ∀ p, u.priority = some p → p ∈ validPriorities
  | _ => True

/-! Helper lemmas shared by several results. -/

/-- Serialization round trip for one task with a valid priority. -/
theorem Task.roundtrip (t : Task) (h : t.priority ∈ validPriorities) :
    Task.from_dict (Task.to_dict t) = .ok t := by
  cases t
  simp only [Task.to_dict, Task.from_dict, Task.construct] at *
  rw [if_pos (by simpa using h)]

namespace TaskService

/-- The update loop finds no match exactly on lists without the id; the list
comes back unchanged. -/
theorem updateFirst_not_found (task_id : String) (u : Updates)
    (tasks : List Task) (h : ∀ s ∈ tasks, s.id ≠ task_id) :
    updateFirst task_id u tasks = (tasks, false) := by
  induction tasks with
  | nil => rfl
  | cons t ts ih =>
    have ht : ¬ t.id == task_id := by
      simpa using h t (List.mem_cons_self t ts)
    simp only [updateFirst, if_neg ht,
      ih (fun s hs => h s (List.mem_cons_of_mem t hs))]

/-- The update loop rewrites exactly the first matching task. -/
theorem updateFirst_found (task_id : String) (u : Updates)
    (pre : List Task) (t : Task) (post : List Task)
    (hpre : ∀ s ∈ pre, s.id ≠ task_id) (ht : t.id = task_id) :
    updateFirst task_id u (pre ++ t :: post) =
      (pre ++ applyUpdates u t :: post, true) := by
  induction pre with
  | nil => simp [updateFirst, ht]
  | cons p ps ih =>
    have hp : ¬ p.id == task_id := by
      simpa using hpre p (List.mem_cons_self p ps)
    simp only [List.cons_append, updateFirst, if_neg hp, List.append_eq,
      ih (fun s hs => hpre s (List.mem_cons_of_mem p hs))]

/-- Characterization of update_task on a list whose first match is exposed
as pre ++ t :: post. -/
theorem update_task_found (task_id : String) (u : Updates)
    (pre : List Task) (t : Task) (post : List Task)
    (hpre : ∀ s ∈ pre, s.id ≠ task_id) (ht : t.id = task_id) :
    update_task task_id u (pre ++ t :: post) =
      (pre ++ applyUpdates u t :: post, true, true) := by
  simp [update_task, updateFirst_found task_id u pre t post hpre ht]

/-- Characterization of update_task when no task has the id. -/
theorem update_task_not_found (task_id : String) (u : Updates)
    (tasks : List Task) (h : ∀ s ∈ tasks, s.id ≠ task_id) :
    update_task task_id u tasks = (tasks, false, false) := by
  simp [update_task, updateFirst_not_found task_id u tasks h]

/-- The collection stored by delete_task is always the filtered one. -/
theorem delete_task_fst (task_id : String) (tasks : List Task) :
    (delete_task task_id tasks).1 =
      tasks.filter (fun t => t.id != task_id) := by
  rw [delete_task]
  by_cases hlt : (tasks.filter (fun t => t.id != task_id)).length <
      tasks.length
  · rw [if_pos hlt]
  · rw [if_neg hlt]
    have hle := List.length_filter_le (fun t => t.id != task_id) tasks
    have heq : (tasks.filter (fun t => t.id != task_id)).length =
        tasks.length := by omega
    exact ((List.Sublist.length_eq (List.filter_sublist tasks)).mp heq).symm

end TaskService

/-- Deserializing a serialized collection of valid tasks gives the
collection back. -/
theorem mapM_from_dict_roundtrip (ts : List Task) (h : ValidTasks ts) :
    (ts.map Task.to_dict).mapM Task.from_dict = Except.ok ts := by
  induction ts with
  | nil => rfl
  | cons t ts ih =>
    have ht : ValidTask t := h t (List.mem_cons_self t ts)
    have hts : ValidTasks ts := fun s hs => h s (List.mem_cons_of_mem t hs)
    rw [List.map_cons, List.mapM_cons, Task.roundtrip t ht, ih hts]
    rfl

namespace TaskService

/-- A service call that does not save leaves the collection as loaded. -/
theorem stepList_not_saved (op : Op) (ts : List Task)
    (h : (stepList op ts).2 = false) : (stepList op ts).1 = ts := by
  cases op with
  | add t => simp [stepList, add_task] at h
  | update i u =>
    cases hr : (updateFirst i u ts).2 with
    | false => simp [stepList, update_task, hr]
    | true => simp [stepList, update_task, hr] at h
  | delete i =>
    by_cases hlt : (ts.filter (fun t => t.id != i)).length < ts.length
    · simp [stepList, delete_task, if_pos hlt] at h
    · simp [stepList, delete_task, if_neg hlt]
  | deleteByIndex i =>
    by_cases hc : 0 ≤ i ∧ i < (ts.length : Int)
    · simp [stepList, delete_task_by_index, if_pos hc] at h
    · simp [stepList, delete_task_by_index, if_neg hc]
  | complete i =>
    cases hr : (updateFirst i { completed := some true } ts).2 with
    | false => simp [stepList, complete_task, update_task, hr]
    | true => simp [stepList, complete_task, update_task, hr] at h
  | completeByIndex i =>
    cases hg : (get_task_by_index i ts).2.1 with
    | none => simp [stepList, complete_task_by_index, hg]
    | some t =>
      cases hr : (updateFirst t.id { completed := some true } ts).2 with
      | false =>
        simp [stepList, complete_task_by_index, hg, complete_task,
          update_task, hr]
      | true =>
        simp [stepList, complete_task_by_index, hg, complete_task,
          update_task, hr] at h

/-- Every task stored by the update loop is an original task or the
rewritten first match. -/
theorem updateFirst_mem (task_id : String) (u : Updates) (ts : List Task) :
    ∀ s ∈ (updateFirst task_id u ts).1,
      s ∈ ts ∨ ∃ t ∈ ts, s = applyUpdates u t := by
  induction ts with
  | nil =>
    intro s hs
    simp [updateFirst] at hs
  | cons t rest ih =>
    intro s hs
    by_cases hmatch : t.id == task_id
    · rw [updateFirst, if_pos hmatch] at hs
      rcases List.mem_cons.mp hs with hs | hs
      · exact Or.inr ⟨t, List.mem_cons_self t rest, hs⟩
      · exact Or.inl (List.mem_cons_of_mem t hs)
    · rw [updateFirst, if_neg hmatch] at hs
      rcases List.mem_cons.mp hs with hs | hs
      · exact Or.inl (hs ▸ List.mem_cons_self t rest)
      · rcases ih s hs with hin | ⟨t2, ht2, he⟩
        · exact Or.inl (List.mem_cons_of_mem t hin)
        · exact Or.inr ⟨t2, List.mem_cons_of_mem t ht2, he⟩

end TaskService

/-- Rewriting a valid task with a valid (or absent) priority update keeps
its priority valid. -/
theorem applyUpdates_valid (u : Updates) (t : Task)
    (hu : ∀ p, u.priority = some p → p ∈ validPriorities)
    (ht : ValidTask t) : ValidTask (applyUpdates u t) := by
  show (applyUpdates u t).priority ∈ validPriorities
  cases hp : u.priority with
  | none => simpa [applyUpdates, hp] using ht
  | some p => simpa [applyUpdates, hp] using hu p hp

/-- Every task stored by update_task is an original task or the rewritten
first match. -/
theorem update_task_fst_mem (task_id : String) (u : Updates)
    (ts : List Task) :
    ∀ s ∈ (TaskService.update_task task_id u ts).1,
      s ∈ ts ∨ ∃ t ∈ ts, s = applyUpdates u t := by
  intro s hs
  cases hr : (TaskService.updateFirst task_id u ts).2 with
  | false =>
    rw [TaskService.update_task, hr] at hs
    exact Or.inl hs
  | true =>
    rw [TaskService.update_task, hr] at hs
    exact TaskService.updateFirst_mem task_id u ts s hs

/-- Every mutating service call keeps the valid-priority invariant of the
collection, provided the call itself is priority-valid. -/
theorem stepList_preserves_valid (op : TaskService.Op) (ts : List Task)
    (hop : OpValid op) (h : ValidTasks ts) :
    ValidTasks (TaskService.stepList op ts).1 := by
  cases op with
  | add t =>
    intro s hs
    have hs2 : s ∈ ts ++ [t] := hs
    rcases List.mem_append.mp hs2 with hs3 | hs3
    · exact h s hs3
    · rw [List.mem_singleton.mp hs3]
      exact hop
  | update i u =>
    intro s hs
    have hs2 : s ∈ (TaskService.update_task i u ts).1 := hs
    rcases update_task_fst_mem i u ts s hs2 with hin | ⟨t2, ht2, he⟩
    · exact h s hin
    · exact he ▸ applyUpdates_valid u t2 hop (h t2 ht2)
  | delete i =>
    intro s hs
    have hs2 : s ∈ (TaskService.delete_task i ts).1 := hs
    rw [TaskService.delete_task_fst] at hs2
    exact h s (List.mem_filter.mp hs2).1
  | deleteByIndex i =>
    intro s hs
    have hs2 : s ∈ (TaskService.delete_task_by_index i ts).1 := hs
    rw [TaskService.delete_task_by_index] at hs2
    by_cases hc : 0 ≤ i ∧ i < (ts.length : Int)
    · rw [if_pos hc] at hs2
      exact h s ((List.eraseIdx_sublist ts i.toNat).subset hs2)
    · rw [if_neg hc] at hs2
      exact h s hs2
  | complete i =>
    intro s hs
    have hs2 : s ∈
        (TaskService.update_task i { completed := some true } ts).1 := hs
    rcases update_task_fst_mem i { completed := some true } ts s hs2 with
      hin | ⟨t2, ht2, he⟩
    · exact h s hin
    · exact he ▸ applyUpdates_valid _ t2 (fun p hp => by cases hp) (h t2 ht2)
  | completeByIndex i =>
    intro s hs
    cases hg : (TaskService.get_task_by_index i ts).2.1 with
    | none =>
      have heq : TaskService.complete_task_by_index i ts =
          (ts, false, false) := by
        rw [TaskService.complete_task_by_index, hg]
      have hs2 : s ∈ (TaskService.complete_task_by_index i ts).1 := hs
      rw [heq] at hs2
      exact h s hs2
    | some t =>
      have heq : TaskService.complete_task_by_index i ts =
          TaskService.complete_task t.id ts := by
        rw [TaskService.complete_task_by_index, hg]
      have hs2 : s ∈ (TaskService.complete_task_by_index i ts).1 := hs
      rw [heq] at hs2
      have hs3 : s ∈
          (TaskService.update_task t.id { completed := some true } ts).1 :=
        hs2
      rcases update_task_fst_mem t.id { completed := some true } ts s hs3
        with hin | ⟨t2, ht2, he⟩
      · exact h s hin
      · exact he ▸ applyUpdates_valid _ t2 (fun p hp => by cases hp)
          (h t2 ht2)

/-- The in-memory backend runs every call without failing and stores the
computed collection. -/
theorem runOp_mem (op : TaskService.Op) (ts : List Task) :
    runOp InMemoryStorage op ts = .ok (TaskService.stepList op ts).1 := by
  show Except.ok (if (TaskService.stepList op ts).2
      then (TaskService.stepList op ts).1 else ts) = _
  cases hr : (TaskService.stepList op ts).2 with
  | true => rw [if_pos rfl]
  | false =>
    rw [if_neg (by simp), TaskService.stepList_not_saved op ts hr]

/-- The file backend simulates the in-memory backend one call at a time on
valid collections and valid calls. -/
theorem runOp_json (op : TaskService.Op) (m : List Task)
    (j : Option (List TaskDict)) (hj : JSONStorage.load j = .ok m)
    (hv : ValidTasks m) (hop : OpValid op) :
    ∃ j2, runOp JSONStorage op j = .ok j2 ∧
      JSONStorage.load j2 = .ok (TaskService.stepList op m).1 ∧
      ValidTasks (TaskService.stepList op m).1 := by
  have hv2 := stepList_preserves_valid op m hop hv
  have hrun : runOp JSONStorage op j =
      .ok (if (TaskService.stepList op m).2
        then JSONStorage.save (TaskService.stepList op m).1 j else j) := by
    rw [runOp, hj]
    rfl
  cases hr : (TaskService.stepList op m).2 with
  | true =>
    refine ⟨some ((TaskService.stepList op m).1.map Task.to_dict),
      ?_, ?_, hv2⟩
    · rw [hrun, hr, if_pos rfl]
      rfl
    · show (((TaskService.stepList op m).1.map Task.to_dict).mapM
          Task.from_dict) = _
      exact mapM_from_dict_roundtrip _ hv2
  | false =>
    refine ⟨j, ?_, ?_, hv2⟩
    · rw [hrun, hr, if_neg (by simp)]
    · rw [hj, TaskService.stepList_not_saved op m hr]

/-- Sequence simulation: from related states, both backends run the whole
sequence without failing and end in related states. -/
theorem runOps_sim (ops : List TaskService.Op) (m : List Task)
    (j : Option (List TaskDict)) (hops : ∀ op ∈ ops, OpValid op)
    (hj : JSONStorage.load j = .ok m) (hv : ValidTasks m) :
    ∃ m2 j2, runOps InMemoryStorage ops m = .ok m2 ∧
      runOps JSONStorage ops j = .ok j2 ∧
      JSONStorage.load j2 = .ok m2 ∧ ValidTasks m2 := by
  induction ops generalizing m j with
  | nil => exact ⟨m, j, rfl, rfl, hj, hv⟩
  | cons op ops ih =>
    have hop := hops op (List.mem_cons_self op ops)
    obtain ⟨j2, hrun, hload, hv2⟩ := runOp_json op m j hj hv hop
    obtain ⟨m3, j3, h1, h2, h3, h4⟩ :=
      ih _ _ (fun o ho => hops o (List.mem_cons_of_mem op ho)) hload hv2
    refine ⟨m3, j3, ?_, ?_, h3, h4⟩
    · rw [runOps, runOp_mem op m]
      exact h1
    · rw [runOps, hrun]
      exact h2

namespace Claims

open TaskService

/-- C3: construction succeeds exactly on the three valid priorities, the
constructed task carries the given fields, and every constructed task
satisfies the priority invariant. -/
theorem construct_validates_priority (title description priority : String)
    (due_date : Option String) (completed : Bool) (id created_at : String) :
    (priority ∈ validPriorities →
      Task.construct title description priority due_date completed id
          created_at =
        .ok { title := title, description := description,
              priority := priority, due_date := due_date,
              completed := completed, id := id, created_at := created_at }) ∧
    (priority ∉ validPriorities →
      ∃ msg, Task.construct title description priority due_date completed id
          created_at = .error msg) ∧
    (∀ t, Task.construct title description priority due_date completed id
        created_at = .ok t → t.priority ∈ validPriorities) := by
  refine ⟨fun h => ?_, fun h => ?_, fun t h => ?_⟩
  · rw [Task.construct, if_pos (List.elem_eq_true_of_mem h)]
  · refine ⟨"Priority must be one of: low, medium, high", ?_⟩
    rw [Task.construct, if_neg]
    intro hc
    exact h (List.mem_of_elem_eq_true hc)
  · rw [Task.construct] at h
    by_cases hc : validPriorities.contains priority
    · rw [if_pos hc] at h
      cases h
      exact List.mem_of_elem_eq_true hc
    · rw [if_neg hc] at h
      cases h

/-- Witness for C3 at concrete inputs: priority high succeeds, priority
urgent fails. -/
theorem construct_validates_priority_witness :
    Task.construct "t" "" "high" none false "I" "C" =
      .ok { title := "t", description := "", priority := "high",
            due_date := none, completed := false, id := "I",
            created_at := "C" } ∧
    ∃ msg, Task.construct "t" "" "urgent" none false "I" "C" = .error msg :=
  ⟨(construct_validates_priority "t" "" "high" none false "I" "C").1
      (by decide),
   (construct_validates_priority "t" "" "urgent" none false "I" "C").2.1
      (by decide)⟩

/-- C2: deserializing the serialized form of any task with a valid priority
gives back the task, every field included. -/
theorem serialize_roundtrip (t : Task) (h : t.priority ∈ validPriorities) :
    Task.from_dict (Task.to_dict t) = .ok t :=
  Task.roundtrip t h

/-- Witness for C2 on a concrete task with a due date and completed flag. -/
theorem serialize_roundtrip_witness :
    Task.from_dict (Task.to_dict
        { title := "t", description := "d", priority := "low",
          due_date := some "2025-01-01", completed := true, id := "I",
          created_at := "C" }) =
      .ok { title := "t", description := "d", priority := "low",
            due_date := some "2025-01-01", completed := true, id := "I",
            created_at := "C" } :=
  serialize_roundtrip
    { title := "t", description := "d", priority := "low",
      due_date := some "2025-01-01", completed := true, id := "I",
      created_at := "C" } (by decide)

/-- C4: delete_task removes every task carrying the id and keeps the rest in
order, saves exactly when it returns found, returns found exactly when some
task carried the id, and leaves the collection untouched otherwise. -/
theorem delete_task_removes_all_matches (task_id : String)
    (tasks : List Task) :
    ((delete_task task_id tasks).2.1 = true ↔ ∃ t ∈ tasks, t.id = task_id) ∧
    (delete_task task_id tasks).2.2 = (delete_task task_id tasks).2.1 ∧
    (delete_task task_id tasks).1 =
      tasks.filter (fun t => t.id != task_id) ∧
    List.Sublist (delete_task task_id tasks).1 tasks ∧
    (∀ t ∈ (delete_task task_id tasks).1, t.id ≠ task_id) ∧
    ((∀ t ∈ tasks, t.id ≠ task_id) →
      delete_task task_id tasks = (tasks, false, false)) := by
  have hiff :
      (tasks.filter (fun t => t.id != task_id)).length < tasks.length ↔
        ∃ t ∈ tasks, t.id = task_id := by
    rw [List.length_filter_lt_length_iff_exists]
    simp
  by_cases hex : ∃ t ∈ tasks, t.id = task_id
  · have hlt := hiff.mpr hex
    rw [delete_task, if_pos hlt]
    refine ⟨by simpa using hex, rfl, rfl, List.filter_sublist tasks, ?_, ?_⟩
    · intro t htmem
      simpa using (List.mem_filter.mp htmem).2
    · intro hall
      obtain ⟨t, htm, hid⟩ := hex
      exact absurd hid (hall t htm)
  · have hnlt : ¬ (tasks.filter (fun t => t.id != task_id)).length <
        tasks.length := fun h => hex (hiff.mp h)
    have hall : ∀ t ∈ tasks, t.id ≠ task_id := by
      intro t htm hid
      exact hex ⟨t, htm, hid⟩
    have hfeq : tasks.filter (fun t => t.id != task_id) = tasks := by
      rw [List.filter_eq_self]
      intro t htm
      simpa using hall t htm
    rw [delete_task, if_neg hnlt]
    exact ⟨by simpa using hex, rfl, hfeq.symm, List.Sublist.refl tasks,
      hall, fun _ => rfl⟩

/-- Witness for C4 on a concrete collection holding two tasks with the id
and one without: both matches go, the third survives. -/
theorem delete_task_removes_all_matches_witness :
    ((delete_task "A" [sampleA, sampleB, sampleA2]).2.1 = true ↔
      ∃ t ∈ [sampleA, sampleB, sampleA2], t.id = "A") ∧
    (delete_task "A" [sampleA, sampleB, sampleA2]).1 =
      [sampleA, sampleB, sampleA2].filter (fun t => t.id != "A") :=
  ⟨(delete_task_removes_all_matches "A" [sampleA, sampleB, sampleA2]).1,
   (delete_task_removes_all_matches "A" [sampleA, sampleB, sampleA2]).2.2.1⟩

/-- C5: every index outside the valid range makes get_task_by_index return
none and delete_task_by_index and complete_task_by_index return False, all
three without saving and with the collection untouched. -/
theorem by_index_out_of_range (index : Int) (tasks : List Task)
    (h : index < 0 ∨ (tasks.length : Int) ≤ index) :
    get_task_by_index index tasks = (tasks, none, false) ∧
    delete_task_by_index index tasks = (tasks, false, false) ∧
    complete_task_by_index index tasks = (tasks, false, false) := by
  have hc : ¬ (0 ≤ index ∧ index < (tasks.length : Int)) := by
    rcases h with h | h <;> omega
  have hg : get_task_by_index index tasks = (tasks, none, false) := by
    rw [get_task_by_index, if_neg hc]
  refine ⟨hg, by rw [delete_task_by_index, if_neg hc], ?_⟩
  rw [complete_task_by_index, hg]

/-- Witness for C5 at the concrete out-of-range index 5 over a one-element
collection. -/
theorem by_index_out_of_range_witness :
    get_task_by_index 5 [sampleA] = ([sampleA], none, false) ∧
    delete_task_by_index 5 [sampleA] = ([sampleA], false, false) ∧
    complete_task_by_index 5 [sampleA] = ([sampleA], false, false) :=
  by_index_out_of_range 5 [sampleA] (Or.inr (by decide))

/-- C8: get_statistics reports the collection length as total, the number
of completed tasks, pending as total minus completed (the two sum back to
the total), and one count per priority value, without saving. -/
theorem get_statistics_counts (tasks : List Task) :
    (get_statistics tasks).1 = tasks ∧
    (get_statistics tasks).2.2 = false ∧
    (get_statistics tasks).2.1.total = tasks.length ∧
    (get_statistics tasks).2.1.completed =
      (tasks.filter (fun t => t.completed)).length ∧
    (get_statistics tasks).2.1.pending =
      tasks.length - (tasks.filter (fun t => t.completed)).length ∧
    (get_statistics tasks).2.1.completed +
      (get_statistics tasks).2.1.pending = tasks.length ∧
    (get_statistics tasks).2.1.low =
      (tasks.filter (fun t => t.priority == "low")).length ∧
    (get_statistics tasks).2.1.medium =
      (tasks.filter (fun t => t.priority == "medium")).length ∧
    (get_statistics tasks).2.1.high =
      (tasks.filter (fun t => t.priority == "high")).length := by
  have hle : (tasks.filter (fun t => t.completed)).length ≤ tasks.length :=
    List.length_filter_le _ _
  have hcp : tasks.countP (fun t => t.completed) =
      (tasks.filter (fun t => t.completed)).length :=
    List.countP_eq_length_filter _ _
  refine ⟨rfl, rfl, rfl, ?_, ?_, ?_, ?_, ?_, ?_⟩
  · simpa [get_statistics] using hcp
  · simpa [get_statistics] using congrArg (tasks.length - ·) hcp
  · simp only [get_statistics]
    omega
  · exact List.countP_eq_length_filter _ _
  · exact List.countP_eq_length_filter _ _
  · exact List.countP_eq_length_filter _ _

/-- C10: with a duplicated id, update_task and complete_task rewrite only
the first matching task and leave every later task (matching or not)
unchanged, while delete_task removes every match. -/
theorem update_hits_first_match_only (task_id : String) (u : Updates)
    (pre : List Task) (t : Task) (post : List Task)
    (hpre : ∀ s ∈ pre, s.id ≠ task_id) (ht : t.id = task_id) :
    update_task task_id u (pre ++ t :: post) =
      (pre ++ applyUpdates u t :: post, true, true) ∧
    complete_task task_id (pre ++ t :: post) =
      (pre ++ applyUpdates { completed := some true } t :: post,
       true, true) ∧
    (delete_task task_id (pre ++ t :: post)).1 =
      (pre ++ t :: post).filter (fun s => s.id != task_id) :=
  ⟨update_task_found task_id u pre t post hpre ht,
   update_task_found task_id { completed := some true } pre t post hpre ht,
   delete_task_fst task_id (pre ++ t :: post)⟩

/-- Witness for C10: a collection with two tasks sharing one id; the update
rewrites the first of them only, the delete removes both. -/
theorem update_hits_first_match_only_witness :
    update_task "A" { title := some "n" } ([sampleB] ++ sampleA :: [sampleA2]) =
      ([sampleB] ++ applyUpdates { title := some "n" } sampleA :: [sampleA2],
       true, true) ∧
    (delete_task "A" ([sampleB] ++ sampleA :: [sampleA2])).1 =
      ([sampleB] ++ sampleA :: [sampleA2]).filter (fun s => s.id != "A") :=
  ⟨(update_hits_first_match_only "A" { title := some "n" } [sampleB] sampleA
      [sampleA2] (by decide) rfl).1,
   (update_hits_first_match_only "A" { title := some "n" } [sampleB] sampleA
      [sampleA2] (by decide) rfl).2.2⟩

/-- Counterexample to C1 as stated: an update set containing the id field
overwrites the task's id, so id is not preserved by the update path. -/
theorem update_task_can_change_id :
    ((update_task "A" { id := some "B" } [sampleA]).1.map Task.id) ≠
      [sampleA.id] := by decide

/-- C1 amended: when the update set does not contain the id and created_at
attributes, update_task overwrites exactly the present fields on the first
task carrying the id, preserves that task's id and created_at, saves and
returns found; when no task carries the id it returns not-found, saves
nothing and leaves the collection untouched. -/
theorem update_task_frame (task_id : String) (u : Updates)
    (hid : u.id = none) (hca : u.created_at = none) :
    (∀ pre t post, (∀ s ∈ pre, s.id ≠ task_id) → t.id = task_id →
      update_task task_id u (pre ++ t :: post) =
        (pre ++ applyUpdates u t :: post, true, true) ∧
      (applyUpdates u t).id = t.id ∧
      (applyUpdates u t).created_at = t.created_at ∧
      (applyUpdates u t).title = u.title.getD t.title ∧
      (applyUpdates u t).description = u.description.getD t.description ∧
      (applyUpdates u t).priority = u.priority.getD t.priority ∧
      (applyUpdates u t).due_date = u.due_date.getD t.due_date ∧
      (applyUpdates u t).completed = u.completed.getD t.completed) ∧
    (∀ tasks, (∀ s ∈ tasks, s.id ≠ task_id) →
      update_task task_id u tasks = (tasks, false, false)) := by
  refine ⟨fun pre t post hpre ht =>
    ⟨update_task_found task_id u pre t post hpre ht, ?_, ?_,
     rfl, rfl, rfl, rfl, rfl⟩,
    update_task_not_found task_id u⟩
  · simp [applyUpdates, hid]
  · simp [applyUpdates, hca]

/-- Witness for C1: a title-only update on a one-element collection keeps
the id, and an unmatched id reports not-found without changes. -/
theorem update_task_frame_witness :
    update_task "A" { title := some "n" } ([] ++ sampleA :: []) =
      ([] ++ applyUpdates { title := some "n" } sampleA :: [], true, true) ∧
    (applyUpdates { title := some "n" } sampleA).id = sampleA.id ∧
    update_task "Z" { title := some "n" } [sampleA] =
      ([sampleA], false, false) :=
  ⟨((update_task_frame "A" { title := some "n" } rfl rfl).1 [] sampleA []
      (by simp) rfl).1,
   ((update_task_frame "A" { title := some "n" } rfl rfl).1 [] sampleA []
      (by simp) rfl).2.1,
   (update_task_frame "Z" { title := some "n" } rfl rfl).2 [sampleA]
      (by decide)⟩

/-- Counterexample to C6 as stated: over a collection whose two tasks share
one id, complete_task_by_index 1 completes the task at position 0 and
leaves the task at position 1 pending, instead of completing exactly the
task at position 1. -/
theorem complete_by_index_wrong_position :
    (complete_task_by_index 1 [sampleA, sampleA2]).1.map Task.completed =
      [true, false] ∧ ([true, false] : List Bool) ≠ [false, true] := by
  constructor
  · rfl
  · decide

/-- C6 amended: on a valid index i whose task's id is not carried by any
earlier task (in particular whenever ids are pairwise distinct),
complete_task_by_index sets completed on exactly the task at position i,
leaves every other task and the order untouched, saves and returns True. -/
theorem complete_by_index_first_unique (pre : List Task) (t : Task)
    (post : List Task) (hpre : ∀ s ∈ pre, s.id ≠ t.id) :
    complete_task_by_index (pre.length : Int) (pre ++ t :: post) =
      (pre ++ { t with completed := true } :: post, true, true) := by
  have hcond : (0 : Int) ≤ (pre.length : Int) ∧
      (pre.length : Int) < ((pre ++ t :: post).length : Int) := by
    simp [List.length_append]
  have hget : get_task_by_index (pre.length : Int) (pre ++ t :: post) =
      (pre ++ t :: post, some t, false) := by
    rw [get_task_by_index, if_pos hcond]
    have hidx : (pre ++ t :: post)[((pre.length : Int).toNat)]? = some t := by
      rw [Int.toNat_natCast, List.getElem?_append_right (Nat.le_refl _)]
      simp
    rw [hidx]
  rw [complete_task_by_index, hget]
  show complete_task t.id (pre ++ t :: post) = _
  rw [complete_task,
    update_task_found t.id { completed := some true } pre t post hpre rfl]
  rfl

/-- Witness for C6 at index 1 of a concrete two-task collection with
distinct ids. -/
theorem complete_by_index_first_unique_witness :
    complete_task_by_index (([sampleB] : List Task).length : Int)
        ([sampleB] ++ sampleA :: []) =
      ([sampleB] ++ { sampleA with completed := true } :: [], true, true) :=
  complete_by_index_first_unique [sampleB] sampleA [] (by decide)

/-- C7: search_tasks keeps the collection and saves nothing, and returns
the subsequence of tasks whose lowered title or lowered description has the
lowered keyword as a contiguous substring, in collection order. -/
theorem search_tasks_exact (keyword : String) (tasks : List Task) :
    (search_tasks keyword tasks).1 = tasks ∧
    (search_tasks keyword tasks).2.2 = false ∧
    List.Sublist (search_tasks keyword tasks).2.1 tasks ∧
    (∀ t ∈ tasks, t ∈ (search_tasks keyword tasks).2.1 ↔
      (keyword.toLower.data <:+: t.title.toLower.data ∨
       keyword.toLower.data <:+: t.description.toLower.data)) := by
  refine ⟨rfl, rfl, List.filter_sublist tasks, fun t htm => ?_⟩
  show t ∈ tasks.filter _ ↔ _
  rw [List.mem_filter]
  simp only [containsKeyword, Bool.or_eq_true, decide_eq_true_eq]
  exact ⟨fun h => h.2, fun h => ⟨htm, h⟩⟩

/-- Witness for C7 on the worked example of the specification: the keyword
doc against the three documentation tasks. -/
theorem search_tasks_exact_witness :
    ({ title := "Write documentation", id := "1", created_at := "x" } : Task)
        ∈ (search_tasks "doc"
            [{ title := "Write documentation", id := "1", created_at := "x" },
             { title := "Fix bug", id := "2", created_at := "x" },
             { title := "Update docs", id := "3", created_at := "x" }]).2.1 ↔
      ("doc".toLower.data <:+:
          ("Write documentation" : String).toLower.data ∨
       "doc".toLower.data <:+: ("" : String).toLower.data) :=
  (search_tasks_exact "doc"
      [{ title := "Write documentation", id := "1", created_at := "x" },
       { title := "Fix bug", id := "2", created_at := "x" },
       { title := "Update docs", id := "3", created_at := "x" }]).2.2.2
    { title := "Write documentation", id := "1", created_at := "x" }
    (List.mem_cons_self _ _)

/-- Counterexample to C9 as stated: after adding a task and updating its
priority to urgent (a value the update path accepts unchecked), get_all
through the in-memory backend returns a collection while through the
file-backed backend it raises on reload, so the two backends disagree on an
observable result. -/
theorem backends_diverge_on_invalid_priority :
    ((runOps InMemoryStorage
        [TaskService.Op.add sampleA,
         TaskService.Op.update "A" { priority := some "urgent" }] []).bind
      (obsAll InMemoryStorage)).isOk = true ∧
    ((runOps JSONStorage
        [TaskService.Op.add sampleA,
         TaskService.Op.update "A" { priority := some "urgent" }] none).bind
      (obsAll JSONStorage)).isOk = false := by
  constructor
  · rfl
  · rfl

/-- C9 amended: as long as no update in the sequence stores a priority
outside the valid enumeration, the in-memory and file-backed backends run
every prefix of the sequence without failing and agree on the observable
get_all and statistics results at every point. -/
theorem backends_agree (ops : List TaskService.Op)
    (hops : ∀ op ∈ ops, OpValid op) (n : Nat) :
    ∃ m j, runOps InMemoryStorage (ops.take n) [] = .ok m ∧
      runOps JSONStorage (ops.take n) none = .ok j ∧
      obsAll InMemoryStorage m = obsAll JSONStorage j ∧
      obsStats InMemoryStorage m = obsStats JSONStorage j := by
  have hops2 : ∀ op ∈ ops.take n, OpValid op :=
    fun o ho => hops o (List.mem_of_mem_take ho)
  obtain ⟨m2, j2, h1, h2, h3, h4⟩ :=
    runOps_sim (ops.take n) [] none hops2 rfl (by intro t ht; cases ht)
  refine ⟨m2, j2, h1, h2, ?_, ?_⟩
  · show Except.ok m2 = (JSONStorage.load j2).bind _
    rw [h3]
    rfl
  · show Except.ok (TaskService.get_statistics m2).2.1 =
      (JSONStorage.load j2).bind _
    rw [h3]
    rfl

/-- Witness for C9 on the one-step sequence that adds a valid task. -/
theorem backends_agree_witness :
    ∃ m j,
      runOps InMemoryStorage ([TaskService.Op.add sampleA].take 1) [] =
        .ok m ∧
      runOps JSONStorage ([TaskService.Op.add sampleA].take 1) none =
        .ok j ∧
      obsAll InMemoryStorage m = obsAll JSONStorage j ∧
      obsStats InMemoryStorage m = obsStats JSONStorage j :=
  backends_agree [TaskService.Op.add sampleA]
    (by
      intro op hop
      rw [List.mem_singleton] at hop
      subst hop
      show sampleA.priority ∈ validPriorities
      decide) 1

end Claims

end TaskManager
